import Mathlib

set_option maxHeartbeats 1000000
set_option maxRecDepth 100000

/- Shallow embedding of the readme-forge repository: the TOML-like manifest parser,
   the directory-structure scanner and project analyzer (src/analyzer.js), and the
   markdown generator (src/generator.js), together with theorems settling the
   specification claims. JavaScript strings are modelled by `String` (manipulated
   through structural helpers over `List Char`), JS objects by association lists,
   JS numbers by an explicit decimal representation, and thrown exceptions by
   `Except Unit`. -/

/-- Whitespace characters matched by JavaScript `\s` and removed by `trim()`
(the members that can occur here; exotic Unicode space separators beyond the
listed ones are not modelled). -/
def jsWs (c : Char) : Bool :=
  c == ' ' || c == '\t' || c == '\n' || c == '\r' || c == '\x0b' || c == '\x0c' ||
  c == ' ' || c == ' ' || c == ' ' || c == '﻿'

/-- JavaScript line terminators `\n`, `\r`, U+2028 and U+2029 (the characters
that the regex `.` does not match and that create `^` positions under the `m`
flag). -/
def lineTerm (c : Char) : Bool :=
  c == '\n' || c == '\r' || c == ' ' || c == ' '

/-- JavaScript `String.prototype.trim()`. -/
def jsTrim (s : String) : String :=
  String.mk (((s.toList.dropWhile jsWs).reverse.dropWhile jsWs).reverse)

/-- JavaScript `String.prototype.split(c)` for a one-character separator. -/
def splitOnCharGo (c : Char) : List Char → List Char → List String
  | acc, [] => [String.mk acc.reverse]
  | acc, x :: xs => if x == c then String.mk acc.reverse :: splitOnCharGo c [] xs
                    else splitOnCharGo c (x :: acc) xs

def splitOnChar (c : Char) (s : String) : List String :=
  splitOnCharGo c [] s.toList

/-- `s.startsWith(pre)`. -/
def strStartsWith (s pre : String) : Bool :=
  pre.toList.isPrefixOf s.toList

/-- `s.endsWith(suf)`. -/
def strEndsWith (s suf : String) : Bool :=
  suf.toList.reverse.isPrefixOf s.toList.reverse

/-- `s.slice(n)` / drop the first `n` characters. -/
def strDrop (s : String) (n : ℕ) : String :=
  String.mk (s.toList.drop n)

/-- Drop the last `n` characters. -/
def strDropRight (s : String) (n : ℕ) : String :=
  String.mk ((s.toList.reverse.drop n).reverse)

/-- `s.substring(0, n)` / take the first `n` characters. -/
def strTake (s : String) (n : ℕ) : String :=
  String.mk (s.toList.take n)

/-- Character count of a string. -/
def strLen (s : String) : ℕ :=
  s.toList.length

/-- `10 ^ n` on integers, structurally. -/
def pow10 : ℕ → ℤ
  | 0 => 1
  | n + 1 => 10 * pow10 n

/-- A JavaScript number as produced by `Number()` on a decimal literal string:
the value `num / 10 ^ den10` (representation is not normalised; the parser only
ever tests such numbers for truthiness, i.e. against zero). -/
structure JsNum where
  num : ℤ
  den10 : ℕ
  deriving DecidableEq

/-- Values stored by the analyzer's TOML-like parser: strings, booleans, numbers,
and nested tables (JS objects as association lists in insertion order). -/
inductive Toml where
  | vStr (s : String)
  | vBool (b : Bool)
  | vNum (q : JsNum)
  | vTable (entries : List (String × Toml))

/-- JS object property read on an association-list table. -/
def lookupKey : List (String × Toml) → String → Option Toml
  | [], _ => none
  | (k', v') :: rest, k => if k' == k then some v' else lookupKey rest k

/-- JS object property assignment: replace the existing binding in place, else append. -/
def objInsert : List (String × Toml) → String → Toml → List (String × Toml)
  | [], k, v => [(k, v)]
  | (k', v') :: rest, k, v =>
    if k' == k then (k', v) :: rest else (k', v') :: objInsert rest k v

/-- Read a nested value along a path of keys. -/
def lookupPath : Toml → List String → Option Toml
  | t, [] => some t
  | .vTable es, k :: rest =>
    match lookupKey es k with
    | some v => lookupPath v rest
    | none => none
  | _, _ :: _ => none

/-- Assign a value at a nested path, creating empty tables for missing
intermediate keys; a non-table intermediate node blocks the write (this branch is
unreachable in the parser, whose current section is always a live table). -/
def pathInsert : Toml → List String → Toml → Toml
  | _, [], v => v
  | .vTable es, k :: rest, v =>
    .vTable (objInsert es k (pathInsert ((lookupKey es k).getD (.vTable [])) rest v))
  | t, _ :: _, _ => t

/-- JS truthiness of a stored value (`''`, `false` and `±0` are falsy; objects are truthy). -/
def truthy : Toml → Bool
  | .vStr s => !(s == "")
  | .vBool b => b
  | .vNum q => !(q.num == 0)
  | .vTable _ => true

/-- Digit run to a natural number. -/
def digitsToNat (l : List Char) : ℕ :=
  l.foldl (fun a c => 10 * a + (c.toNat - '0'.toNat)) 0

/-- JavaScript `Number()` on a trimmed string, for decimal literal forms
`[+-]? (digits [. digits?] | . digits) ([eE] [+-]? digits)?`, plus the empty
string, which `Number()` maps to `0` (and which `isNaN` therefore accepts).
Strings accepted by `Number()` only in hexadecimal/octal/binary or `Infinity`
form are not modelled (they fall through to the string branch of the parser's
value coercion; no claim depends on them). -/
def jsNumber? (s : String) : Option JsNum :=
  let cs := s.toList
  let body := fun (sign : ℤ) (cs : List Char) =>
    let intPart := cs.takeWhile Char.isDigit
    let afterInt := cs.drop intPart.length
    let fracPart :=
      match afterInt with
      | '.' :: rest => rest.takeWhile Char.isDigit
      | _ => []
    let afterFrac :=
      match afterInt with
      | '.' :: rest => rest.drop fracPart.length
      | _ => afterInt
    if intPart.isEmpty && fracPart.isEmpty then none
    else
      let mant : ℤ := (digitsToNat intPart : ℤ) * pow10 fracPart.length + (digitsToNat fracPart : ℤ)
      match afterFrac with
      | [] => some ⟨sign * mant, fracPart.length⟩
      | e :: rest =>
        if e == 'e' || e == 'E' then
          let eNeg :=
            match rest with
            | '-' :: _ => true
            | _ => false
          let rest' :=
            match rest with
            | '+' :: r => r
            | '-' :: r => r
            | _ => rest
          let eDigits := rest'.takeWhile Char.isDigit
          if eDigits.isEmpty || !(rest'.drop eDigits.length).isEmpty then none
          else
            let eVal := digitsToNat eDigits
            if eNeg then some ⟨sign * mant, fracPart.length + eVal⟩
            else some ⟨sign * mant * pow10 eVal, fracPart.length⟩
        else none
  match cs with
  | [] => some ⟨0, 0⟩
  | '+' :: rest => body 1 rest
  | '-' :: rest => body (-1) rest
  | _ => body 1 cs

/-- The parser's section-header regex `^\[([^\]]+)\]$` on a trimmed line:
returns the captured section path when the whole line is `[...]` with a
non-empty bracket content free of `]`. -/
def sectionName? (t : String) : Option String :=
  match t.toList with
  | '[' :: rest =>
    let mid := rest.takeWhile (fun c => !(c == ']'))
    if mid.isEmpty then none
    else
      match rest.drop mid.length with
      | [']'] => some (String.mk mid)
      | _ => none
  | _ => none

/-- The parser's key/value regex `^([^=]+)=\s*(.+)$` on a trimmed line: the key is
everything before the first `=`; the value capture starts after the greedy `\s*`
and must run to the end of the line without a line terminator (otherwise `$`,
which in JavaScript matches only at the end of the input, fails and the line
does not match). When everything after `=` is whitespace, the greedy `\s*`
backtracks by one character, so the capture is the final whitespace character
provided it is not a line terminator (on a line already trimmed, which cannot
end in whitespace, this branch never fires). -/
def kvMatch? (t : String) : Option (String × String) :=
  let cs := t.toList
  let before := cs.takeWhile (fun c => !(c == '='))
  if before.isEmpty then none
  else
    match cs.drop before.length with
    | '=' :: after =>
      let cap := after.dropWhile jsWs
      if cap.isEmpty then
        match after.getLast? with
        | some w => if lineTerm w then none else some (String.mk before, String.mk [w])
        | none => none
      else if cap.all (fun c => !lineTerm c) then some (String.mk before, String.mk cap)
      else none
    | _ => none

/-- The parser's value coercion: strip one layer of matching double or single
quotes, else literal `true`/`false`, else a numeric string, else the trimmed
string itself. -/
def coerceValue (raw : String) : Toml :=
  let v := jsTrim raw
  if strStartsWith v "\"" && strEndsWith v "\"" then .vStr (strDropRight (strDrop v 1) 1)
  else if strStartsWith v "'" && strEndsWith v "'" then .vStr (strDropRight (strDrop v 1) 1)
  else if v == "true" then .vBool true
  else if v == "false" then .vBool false
  else
    match jsNumber? v with
    | some q => .vNum q
    | none => .vStr v

/-- The parser's `currentSection` variable. In the source it is a JS reference:
either an alias of the table reachable from the result at a known path (tables
are created in place and never detached while current), a primitive value (when
a section path met a truthy scalar), or `undefined` (after reading a property of
a primitive). -/
inductive CurSec where
  | path (p : List String)
  | scalar (v : Toml)
  | undef

/-- One step per section-path segment of `parseToml`'s header handling:
`if (!currentSection[part]) currentSection[part] = {}; currentSection = currentSection[part]`.
Reading a property of `undefined` throws; reading a property of a primitive
yields `undefined` (own properties only; prototype properties such as `.length`
are not modelled) and the subsequent assignment to the primitive is silently
ignored in sloppy mode. -/
def sectionGo : Toml → CurSec → List String → Except Unit (Toml × CurSec)
  | root, cs, [] => .ok (root, cs)
  | _, .undef, _ :: _ => .error ()
  | root, .scalar _, _ :: rest => sectionGo root .undef rest
  | root, .path p, part :: rest =>
    match lookupPath root (p ++ [part]) with
    | some v =>
      if truthy v then
        match v with
        | .vTable _ => sectionGo root (.path (p ++ [part])) rest
        | _ => sectionGo root (.scalar v) rest
      else sectionGo (pathInsert root (p ++ [part]) (.vTable [])) (.path (p ++ [part])) rest
    | none => sectionGo (pathInsert root (p ++ [part]) (.vTable [])) (.path (p ++ [part])) rest

/-- One line of `parseToml`: skip blank/comment lines, process a section header
(resetting `currentSection` to the result root before walking the dotted path),
insert a key/value pair into the current section (throwing when the current
section is `undefined`, silently dropping the write when it is a primitive), and
ignore any other line. -/
def processLine (st : Toml × CurSec) (line : String) : Except Unit (Toml × CurSec) :=
  let t := jsTrim line
  if t == "" then .ok st
  else if strStartsWith t "#" then .ok st
  else
    match sectionName? t with
    | some sec => sectionGo st.1 (.path []) (splitOnChar '.' sec)
    | none =>
      match kvMatch? t with
      | some (k, vRaw) =>
        let key := jsTrim k
        let v := coerceValue vRaw
        match st.2 with
        | .path p => .ok (pathInsert st.1 (p ++ [key]) v, st.2)
        | .scalar _ => .ok st
        | .undef => .error ()
      | none => .ok st

/-- `parseToml` from src/analyzer.js: split on `\n`, fold the line processor over
the lines, return the result object. `.error ()` models the `TypeError` the
source can throw when a section path traverses a previously assigned scalar. -/
def parseToml (content : String) : Except Unit Toml :=
  ((splitOnChar '\n' content).foldlM processLine (Toml.vTable [], CurSec.path [])).map (·.1)

/-- Helper for stating concrete parses: the value at a key path of a successful parse. -/
def parseLookup (s : String) (p : List String) : Option Toml :=
  match parseToml s with
  | .ok t => lookupPath t p
  | .error _ => none

/-- The `author` field of a parsed package.json: a plain string or an object
with an optional `name` property. -/
inductive AuthorField where
  | str (s : String)
  | obj (name : Option String)

/-- The `repository` field of a parsed package.json: a plain string or an
object with an optional `url` property. -/
inductive RepoField where
  | str (s : String)
  | obj (url : Option String)

/-- The `bin` field of a parsed package.json: a plain string or an object,
of which only the key list is consumed (`Object.keys(pkg.bin)[0]`). -/
inductive BinField where
  | str (s : String)
  | obj (keys : List String)

/-- The result of `JSON.parse` on a package.json, restricted to the keys the
analyzer reads. `JSON.parse` is a platform primitive, so its result is modelled
as structured data with each field at its manifest type; manifests binding these
keys to other JSON types are outside the model. -/
structure Pkg where
  name : Option String := none
  description : Option String := none
  version : Option String := none
  author : Option AuthorField := none
  license : Option String := none
  repository : Option RepoField := none
  homepage : Option String := none
  keywords : Option (List String) := none
  dependencies : Option (List String) := none
  devDependencies : Option (List String) := none
  scripts : Option (List (String × String)) := none
  bin : Option BinField := none
  main : Option String := none
  types : Option String := none
  typings : Option String := none

/-- Contents of a regular file: raw text, or (for package.json, which the source
only ever reads through `JSON.parse`) an abstract parse result where `none`
models content that is not valid JSON. -/
inductive FileContent where
  | text (s : String)
  | json (p : Option Pkg)

/-- One immediate child of the analyzed directory (`fs.Dirent`). -/
structure Dirent where
  name : String
  isDir : Bool := false
  content : FileContent := .text ""

/-- The analyzed directory: its immediate children. -/
structure Dir where
  entries : List Dirent

def findEntry (d : Dir) (n : String) : Option Dirent :=
  d.entries.find? (fun e => e.name == n)

/-- `fs.existsSync(path.join(dir, n))`: true for files and directories alike. -/
def existsPath (d : Dir) (n : String) : Bool :=
  (findEntry d n).isSome

/-- `fs.readFileSync(path.join(dir, n), 'utf8')` under try/catch: `none` models a
missing entry or a throw (e.g. reading a directory). -/
def readText (d : Dir) (n : String) : Option String :=
  match findEntry d n with
  | some e =>
    if e.isDir then none
    else
      match e.content with
      | .text s => some s
      | .json _ => none
  | none => none

/-- `JSON.parse(fs.readFileSync(package.json))` under try/catch: `none` models a
missing file, a read failure, or a JSON parse failure. -/
def readPkg (d : Dir) : Option Pkg :=
  match findEntry d "package.json" with
  | some e =>
    if e.isDir then none
    else
      match e.content with
      | .json p => p
      | .text _ => none
  | none => none

/-- The structure record produced by `analyzeStructure`. -/
structure Structure where
  hasTests : Bool := false
  hasDocs : Bool := false
  hasExamples : Bool := false
  hasSrc : Bool := false
  hasLib : Bool := false
  hasBin : Bool := false
  hasConfig : Bool := false
  hasCI : Bool := false
  mainFiles : List String := []
  directories : List String := []

def initStructure : Structure := {}

/-- JavaScript `toLowerCase()` (ASCII). -/
def strToLower (s : String) : String :=
  String.mk (s.toList.map Char.toLower)

/-- One directory entry of `analyzeStructure`'s loop. -/
def structStep (s : Structure) (e : Dirent) : Structure :=
  if strStartsWith e.name "." then
    if e.name == ".github" || e.name == ".gitlab-ci.yml" then { s with hasCI := true }
    else s
  else if e.isDir then
    let s := { s with directories := s.directories ++ [e.name] }
    let lower := strToLower e.name
    if lower == "test" || lower == "tests" || lower == "__tests__" || lower == "spec" then
      { s with hasTests := true }
    else if lower == "docs" || lower == "documentation" then { s with hasDocs := true }
    else if lower == "examples" || lower == "example" then { s with hasExamples := true }
    else if lower == "src" || lower == "source" then { s with hasSrc := true }
    else if lower == "lib" then { s with hasLib := true }
    else if lower == "bin" then { s with hasBin := true }
    else if lower == "config" then { s with hasConfig := true }
    else s
  else
    let lower := strToLower e.name
    if strEndsWith lower ".md" || lower == "makefile" || lower == "dockerfile" then
      { s with mainFiles := s.mainFiles ++ [e.name] }
    else s

/-- `analyzeStructure` from src/analyzer.js (an unreadable directory yields the
all-default record via the source's try/catch; the model covers readable
directories, whose entry list is given). -/
def analyzeStructure (d : Dir) : Structure :=
  d.entries.foldl structStep initStructure

/-- `pkg.x` truthiness for an optional string field. -/
def optTruthyStr : Option String → Bool
  | some s => !(s == "")
  | none => false

/-- `pkg.bin` truthiness (an object is truthy even when empty). -/
def binTruthy : Option BinField → Bool
  | some (.str s) => !(s == "")
  | some (.obj _) => true
  | none => false

/-- Association-list lookup on a scripts object. -/
def sLookup (l : List (String × String)) (k : String) : Option String :=
  (l.find? (fun kv => kv.1 == k)).map (·.2)

/-- `pkg.scripts?.k` truthiness. -/
def scriptTruthy (scripts : Option (List (String × String))) (k : String) : Bool :=
  match scripts with
  | some l =>
    match sLookup l k with
    | some v => !(v == "")
    | none => false
  | none => false

/-- `extractFeatures` from src/analyzer.js. -/
def extractFeatures (d : Dir) (projectType : String) : List String :=
  let st := analyzeStructure d
  let features : List String :=
    (if st.hasTests then ["Comprehensive test suite"] else []) ++
    (if st.hasDocs then ["Detailed documentation"] else []) ++
    (if st.hasExamples then ["Example code included"] else []) ++
    (if st.hasCI then ["CI/CD integration"] else []) ++
    (if st.hasBin then ["CLI support"] else [])
  if projectType == "node" then
    match readPkg d with
    | some pkg =>
      features ++
      (if binTruthy pkg.bin then ["Executable CLI tool"] else []) ++
      (if optTruthyStr pkg.types || optTruthyStr pkg.typings then ["TypeScript definitions"] else []) ++
      (if scriptTruthy pkg.scripts "test" then ["Test scripts configured"] else []) ++
      (if scriptTruthy pkg.scripts "build" then ["Build system configured"] else [])
    | none => features
  else features

/-- `[a-zA-Z_-]`, the character class of the Makefile-target regex. -/
def charsetP (c : Char) : Bool :=
  c.isAlpha || c == '_' || c == '-'

/-- Split at every JavaScript line terminator: the segments start exactly at the
positions where `^` can match under the `m` flag. -/
def splitLinesJsGo : List Char → List Char → List String
  | acc, [] => [String.mk acc.reverse]
  | acc, x :: xs =>
    if lineTerm x then String.mk acc.reverse :: splitLinesJsGo [] xs
    else splitLinesJsGo (x :: acc) xs

def splitLinesJs (s : String) : List String :=
  splitLinesJsGo [] s.toList

/-- Anchored match of `([a-zA-Z_-]+):` at the start of a line segment: the
greedy character-class run, provided it is non-empty and `:` follows. -/
def matchTargetRun (cs : List Char) : Option (List Char) :=
  if (cs.takeWhile charsetP).isEmpty then none
  else
    match cs.drop (cs.takeWhile charsetP).length with
    | ':' :: _ => some (cs.takeWhile charsetP)
    | _ => none

/-- All matches of `/^([a-zA-Z_-]+):/gm` over a Makefile, with the trailing `:`
already removed (the source removes it with `replace(':', '')`). -/
def makefileMatchNames (content : String) : List String :=
  (splitLinesJs content).filterMap (fun seg => (matchTargetRun seg.toList).map String.mk)

/-- JS object property assignment for string-valued objects. -/
def objInsertS : List (String × String) → String → String → List (String × String)
  | [], k, v => [(k, v)]
  | (k', v') :: rest, k, v =>
    if k' == k then (k', v) :: rest else (k', v') :: objInsertS rest k v

/-- Object spread/assign: fold the right object's entries into the left. -/
def objMergeS (base adds : List (String × String)) : List (String × String) :=
  adds.foldl (fun s kv => objInsertS s kv.1 kv.2) base

/-- `detectScripts` from src/analyzer.js. -/
def detectScripts (d : Dir) (projectType : String) : List (String × String) :=
  let scripts : List (String × String) :=
    if projectType == "node" then
      match readPkg d with
      | some pkg => pkg.scripts.getD []
      | none => []
    else []
  match readText d "Makefile" with
  | some content =>
    (makefileMatchNames content).foldl
      (fun s name =>
        if strStartsWith name "." then s
        else objInsertS s ("make " ++ name) "Makefile target")
      scripts
  | none => scripts

/-- The Makefile target names the `detectScripts` Makefile loop iterates over:
the matches of its `/^([a-zA-Z_-]+):/gm` regex over a readable Makefile (with
the trailing `:` removed), and none when no Makefile is readable. -/
def makefileTargets (d : Dir) : List String :=
  match readText d "Makefile" with
  | some content => makefileMatchNames content
  | none => []

/-- Strip a literal prefix from a character list. -/
def stripPrefixChars : List Char → List Char → Option (List Char)
  | [], cs => some cs
  | p :: ps, c :: cs => if c == p then stripPrefixChars ps cs else none
  | _ :: _, [] => none

/-- Backtracking for `/module\s+(.+)/`: having seen a maximal whitespace run of
length `j` after the keyword, shrink the greedy `\s+` until the character that
follows it can start the `.+` capture (i.e. is not a line terminator); the
capture then runs to the end of the line. -/
def goModBacktrack (afterKw : List Char) : ℕ → Option (List Char)
  | 0 => none
  | j + 1 =>
    match afterKw.drop (j + 1) with
    | d :: rest =>
      if lineTerm d then goModBacktrack afterKw j
      else some ((d :: rest).takeWhile (fun c => !lineTerm c))
    | [] => goModBacktrack afterKw j

/-- Try `/module\s+(.+)/` anchored at the head of `cs`. -/
def goModTryAt (cs : List Char) : Option (List Char) :=
  match stripPrefixChars "module".toList cs with
  | some afterKw =>
    let wsLen := (afterKw.takeWhile jsWs).length
    if wsLen == 0 then none else goModBacktrack afterKw wsLen
  | none => none

/-- First match of `/module\s+(.+)/`: scan start positions left to right. -/
def goModScan : List Char → Option (List Char)
  | [] => none
  | c :: rest =>
    match goModTryAt (c :: rest) with
    | some cap => some cap
    | none => goModScan rest

/-- The capture of `content.match(/module\s+(.+)/)` in the Go probe. -/
def goModule? (content : String) : Option String :=
  (goModScan content.toList).map String.mk

/-- The metadata record produced by `analyzeProject` (the source's `analysis`
object; the `structure` field is spelled `structure'`, `structure` being a Lean
keyword). -/
structure Analysis where
  dir : String
  detected : Bool
  type : String
  name : String
  description : String
  version : String
  author : String
  license : String
  repository : String
  homepage : String
  keywords : List String
  dependencies : List String
  devDependencies : List String
  scripts : List (String × String)
  features : List String
  structure' : Structure
  installCommand : String
  runCommand : String
  buildCommand : String
  testCommand : String

/-- Node's `path.basename` (POSIX): drop trailing separators, then take the
final path component; the root `/` and the empty path have base name `""`. -/
def basename (p : String) : String :=
  String.mk (((p.toList.reverse.dropWhile (fun c => c == '/')).takeWhile (fun c => !(c == '/'))).reverse)

/-- The analyzer's initial record (the source initialises `structure` to `{}`,
for which the empty structure record stands in; it is overwritten before the
record is returned). -/
def initAnalysis (dir : String) : Analysis :=
  { dir := dir, detected := false, type := "unknown", name := basename dir,
    description := "", version := "", author := "", license := "", repository := "",
    homepage := "", keywords := [], dependencies := [], devDependencies := [],
    scripts := [], features := [], structure' := initStructure,
    installCommand := "", runCommand := "", buildCommand := "", testCommand := "" }

/-- `x || dflt` for an optional string field. -/
def jsOrStr (v : Option String) (dflt : String) : String :=
  match v with
  | some s => if s == "" then dflt else s
  | none => dflt

/-- `x || ''` for an optional string field. -/
def getStr (v : Option String) : String :=
  jsOrStr v ""

/-- The Node probe of `analyzeProject` (the package.json block). -/
def nodeProbe (d : Dir) (a : Analysis) : Analysis :=
  if existsPath d "package.json" then
    match readPkg d with
    | some pkg =>
      let a := { a with
        detected := true, type := "node",
        name := jsOrStr pkg.name a.name,
        description := getStr pkg.description,
        version := getStr pkg.version,
        author := (match pkg.author with
          | some (.str s) => s
          | some (.obj n) => n.getD ""
          | none => ""),
        license := getStr pkg.license,
        repository := (match pkg.repository with
          | some (.str s) => s
          | some (.obj u) => u.getD ""
          | none => ""),
        homepage := getStr pkg.homepage,
        keywords := pkg.keywords.getD [],
        dependencies := pkg.dependencies.getD [],
        devDependencies := pkg.devDependencies.getD [],
        scripts := pkg.scripts.getD [],
        installCommand := "npm install" }
      let a :=
        if binTruthy pkg.bin then
          { a with runCommand := "npx " ++ (match pkg.bin with
              | some (.str _) => a.name
              | some (.obj keys) => keys.headD "undefined"
              | none => a.name) }
        else if optTruthyStr pkg.main then { a with runCommand := "node " ++ pkg.main.getD "" }
        else a
      let a := if scriptTruthy pkg.scripts "build" then { a with buildCommand := "npm run build" } else a
      if scriptTruthy pkg.scripts "test" then { a with testCommand := "npm test" } else a
    | none => a
  else a

/-- Property read on a parsed manifest value (primitive prototype properties are
not modelled and read as absent). -/
def tomlField (v : Toml) (key : String) : Option Toml :=
  match v with
  | .vTable es => lookupKey es key
  | _ => none

/-- `x || dflt` for a parsed-manifest field assigned to a string slot of the
record; a non-string truthy value (which the untyped source would assign as-is)
is outside the typed model and falls back to the default. -/
def tomlOrStr (v : Option Toml) (dflt : String) : String :=
  match v with
  | some (.vStr s) => if s == "" then dflt else s
  | _ => dflt

/-- `x || dflt` on parsed manifest values. -/
def jsOrToml (v : Option Toml) (dflt : Toml) : Toml :=
  match v with
  | some w => if truthy w then w else dflt
  | none => dflt

/-- Replace every occurrence of a character (`replace(/c/g, d)`). -/
def strReplaceChar (s : String) (oldc newc : Char) : String :=
  String.mk (s.toList.map (fun c => if c == oldc then newc else c))

/-- The Python probe of `analyzeProject` (pyproject.toml, else setup.py or
requirements.txt). `keywords` is always reassigned `project.keywords || []`;
the parser never produces arrays, so the model keeps the `[]` default (the
untyped source would store a scalar there, a quirk no claim touches). -/
def pythonProbe (d : Dir) (a : Analysis) : Analysis :=
  if existsPath d "pyproject.toml" then
    match readText d "pyproject.toml" with
    | some content =>
      match parseToml content with
      | .ok toml =>
        let poetryRaw : Option Toml :=
          match lookupPath toml ["tool"] with
          | some (.vTable es) => lookupKey es "poetry"
          | _ => none
        let project : Toml :=
          jsOrToml (tomlField toml "project") (jsOrToml poetryRaw (.vTable []))
        let a := { a with
          detected := true, type := "python",
          name := tomlOrStr (tomlField project "name") a.name,
          description := tomlOrStr (tomlField project "description") "",
          version := tomlOrStr (tomlField project "version") "",
          license := tomlOrStr (tomlField project "license") "",
          keywords := [] }
        let a :=
          match tomlField project "authors" with
          | some v =>
            if truthy v then
              match v with
              | .vStr s => { a with author := s }
              | _ => a
            else a
          | none => a
        let a := { a with
          installCommand := "pip install .",
          runCommand := "python -m " ++ strReplaceChar a.name '-' '_' }
        match lookupPath toml ["tool"] with
        | some (.vTable es) =>
          match lookupKey es "pytest" with
          | some w => if truthy w then { a with testCommand := "pytest" } else a
          | none => a
        | _ => a
      | .error _ => a
    | none => a
  else if existsPath d "setup.py" || existsPath d "requirements.txt" then
    { a with
      detected := true, type := "python",
      installCommand := if existsPath d "setup.py" then "pip install ." else "pip install -r requirements.txt" }
  else a

/-- `split('/').pop()`. -/
def lastSegment (m : String) : String :=
  (splitOnChar '/' m).getLastD ""

/-- The Go probe of `analyzeProject` (the go.mod block). -/
def goProbe (d : Dir) (a : Analysis) : Analysis :=
  if existsPath d "go.mod" then
    match readText d "go.mod" with
    | some content =>
      let a := { a with detected := true, type := "go" }
      let a :=
        match goModule? content with
        | some cap =>
          let modulePath := jsTrim cap
          { a with name := lastSegment modulePath,
                   repository := if strStartsWith modulePath "github.com" then "https://" ++ modulePath else "" }
        | none => a
      { a with installCommand := "go install", runCommand := "go run .",
               buildCommand := "go build", testCommand := "go test ./..." }
    | none => a
  else a

/-- The Rust probe of `analyzeProject` (the Cargo.toml block). -/
def rustProbe (d : Dir) (a : Analysis) : Analysis :=
  if existsPath d "Cargo.toml" then
    match readText d "Cargo.toml" with
    | some content =>
      match parseToml content with
      | .ok toml =>
        let pkg : Toml := jsOrToml (tomlField toml "package") (.vTable [])
        let a := { a with
          detected := true, type := "rust",
          name := tomlOrStr (tomlField pkg "name") a.name,
          description := tomlOrStr (tomlField pkg "description") "",
          version := tomlOrStr (tomlField pkg "version") "",
          license := tomlOrStr (tomlField pkg "license") "",
          repository := tomlOrStr (tomlField pkg "repository") "",
          homepage := tomlOrStr (tomlField pkg "homepage") "",
          keywords := [] }
        let a :=
          match tomlField pkg "authors" with
          | some v =>
            if truthy v then
              match v with
              | .vStr s => { a with author := s }
              | _ => a
            else a
          | none => a
        { a with installCommand := "cargo install --path .", runCommand := "cargo run",
                 buildCommand := "cargo build --release", testCommand := "cargo test" }
      | .error _ => a
    | none => a
  else a

/-- `analyzeProject` from src/analyzer.js: fixed probe order node → python →
go → rust, then structure, features and detected scripts (the source function
is async only because of file reads, which the `Dir` value supplies). -/
def analyzeProject (dir : String) (d : Dir) : Analysis :=
  let a := initAnalysis dir
  let a := nodeProbe d a
  let a := pythonProbe d a
  let a := goProbe d a
  let a := rustProbe d a
  { a with structure' := analyzeStructure d,
           features := extractFeatures d a.type,
           scripts := objMergeS a.scripts (detectScripts d a.type) }

/-- `\w` of the title regex `\b\w`. -/
def wordChar (c : Char) : Bool :=
  c.isAlpha || c.isDigit || c == '_'

/-- `replace(/\b\w/g, c => c.toUpperCase())`: uppercase each word character not
preceded by a word character; the boolean argument records whether the previous
character was a word character. -/
def upWordsGo : Bool → List Char → List Char
  | _, [] => []
  | prevW, c :: cs =>
    (if wordChar c && !prevW then c.toUpper else c) :: upWordsGo (wordChar c) cs

/-- `formatTitle` from src/generator.js. -/
def formatTitle (name : String) : String :=
  if name == "" then "Project"
  else String.mk (upWordsGo false (name.toList.map (fun c => if c == '-' || c == '_' then ' ' else c)))

/-- `replace(/[-_](.)/g, (_, c) => c.toUpperCase())`. -/
def camelGo : List Char → List Char
  | [] => []
  | c :: cs =>
    if c == '-' || c == '_' then
      match cs with
      | d :: cs' => d.toUpper :: camelGo cs'
      | [] => [c]
    else c :: camelGo cs

/-- `toCamelCase` from src/generator.js. -/
def toCamelCase (str : String) : String :=
  match camelGo str.toList with
  | [] => ""
  | c :: cs => String.mk (c.toLower :: cs)

/-- `describeScript` from src/generator.js: the fixed description table, falling
back to the first 50 characters of the raw script (the table is a plain JS
object; inherited `Object.prototype` keys are not modelled — the generator only
calls this with the names `test`, `build` and `start`). -/
def describeScript (name script : String) : String :=
  if name == "test" then "Run tests"
  else if name == "build" then "Build the project"
  else if name == "start" then "Start the application"
  else if name == "dev" then "Run in development mode"
  else if name == "lint" then "Run linter"
  else if name == "format" then "Format code"
  else strTake script 50

def hexDigit (n : ℕ) : Char :=
  if n < 10 then Char.ofNat ('0'.toNat + n) else Char.ofNat ('A'.toNat + n - 10)

/-- UTF-8 bytes of a code point. -/
def utf8Bytes (n : ℕ) : List ℕ :=
  if n < 0x80 then [n]
  else if n < 0x800 then [0xC0 + n / 0x40, 0x80 + n % 0x40]
  else if n < 0x10000 then [0xE0 + n / 0x1000, 0x80 + (n / 0x40) % 0x40, 0x80 + n % 0x40]
  else [0xF0 + n / 0x40000, 0x80 + (n / 0x1000) % 0x40, 0x80 + (n / 0x40) % 0x40, 0x80 + n % 0x40]

/-- JavaScript `encodeURIComponent`: the unreserved characters
`A-Z a-z 0-9 - _ . ! ~ * ' ( )` pass through, everything else is
percent-encoded per UTF-8 byte. -/
def encodeURIComponentChar (c : Char) : List Char :=
  if c.isAlphanum || c == '-' || c == '_' || c == '.' || c == '!' || c == '~' ||
     c == '*' || c.toNat == 39 || c == '(' || c == ')' then [c]
  else (utf8Bytes c.toNat).foldr (fun b acc => '%' :: hexDigit (b / 16) :: hexDigit (b % 16) :: acc) []

def encodeURIComponent (s : String) : String :=
  String.mk (s.toList.foldr (fun c acc => encodeURIComponentChar c ++ acc) [])

/-- `s.includes(sub)`: substring test. -/
def includesGo (sub : List Char) : List Char → Bool
  | [] => sub.isEmpty
  | c :: rest => sub.isPrefixOf (c :: rest) || includesGo sub rest

def strIncludes (s sub : String) : Bool :=
  includesGo sub.toList s.toList

/-- Anchored match of `github\.com[\/:]([^\/]+\/[^\/\.]+)`: the literal host,
one `/` or `:` separator, then the captured `owner/repo` (owner a non-empty run
without `/`, repo a non-empty run without `/` or `.`). -/
def repoTryAt (cs : List Char) : Option (List Char) :=
  match stripPrefixChars "github.com".toList cs with
  | some (sep :: rest) =>
    if sep == '/' || sep == ':' then
      let a := rest.takeWhile (fun c => !(c == '/'))
      if a.isEmpty then none
      else
        match rest.drop a.length with
        | '/' :: rest2 =>
          let b := rest2.takeWhile (fun c => !(c == '/' || c == '.'))
          if b.isEmpty then none else some (a ++ '/' :: b)
        | _ => none
    else none
  | _ => none

/-- First match of the repository regex: scan start positions left to right. -/
def repoScan : List Char → Option (List Char)
  | [] => none
  | c :: rest =>
    match repoTryAt (c :: rest) with
    | some r => some r
    | none => repoScan rest

/-- The capture of `repository.match(/github\.com[\/:]([^\/]+\/[^\/\.]+)/)`. -/
def repoMatch? (s : String) : Option String :=
  (repoScan s.toList).map String.mk

/-- `generateBadges` from src/generator.js. (The source also computes a
`licenseSlug` local from the license string; it is never used, so the vestigial
computation is omitted.) -/
def generateBadges (analysis : Analysis) : List String :=
  (if analysis.type == "node" && !(analysis.name == "") && !(strStartsWith analysis.name ".") then
    ["[![npm version](https://img.shields.io/npm/v/" ++ analysis.name ++ ".svg)](https://www.npmjs.com/package/" ++ analysis.name ++ ")",
     "[![npm downloads](https://img.shields.io/npm/dm/" ++ analysis.name ++ ".svg)](https://www.npmjs.com/package/" ++ analysis.name ++ ")"]
   else []) ++
  (if analysis.type == "rust" && !(analysis.name == "") then
    ["[![Crates.io](https://img.shields.io/crates/v/" ++ analysis.name ++ ".svg)](https://crates.io/crates/" ++ analysis.name ++ ")",
     "[![Crates.io](https://img.shields.io/crates/d/" ++ analysis.name ++ ".svg)](https://crates.io/crates/" ++ analysis.name ++ ")"]
   else []) ++
  (if analysis.type == "python" && !(analysis.name == "") then
    ["[![PyPI version](https://img.shields.io/pypi/v/" ++ analysis.name ++ ".svg)](https://pypi.org/project/" ++ analysis.name ++ "/)",
     "[![PyPI downloads](https://img.shields.io/pypi/dm/" ++ analysis.name ++ ".svg)](https://pypi.org/project/" ++ analysis.name ++ "/)"]
   else []) ++
  (if !(analysis.license == "") then
    ["[![License: " ++ analysis.license ++ "](https://img.shields.io/badge/License-" ++ encodeURIComponent analysis.license ++ "-blue.svg)](LICENSE)"]
   else []) ++
  (if !(analysis.repository == "") && strIncludes analysis.repository "github.com" then
    match repoMatch? analysis.repository with
    | some repo =>
      ["[![GitHub stars](https://img.shields.io/github/stars/" ++ repo ++ ".svg?style=social)](https://github.com/" ++ repo ++ ")"]
    | none => []
   else [])

/-- The `lines` array of `generateInstallation` from src/generator.js. -/
def generateInstallationLines (analysis : Analysis) : List String :=
  if analysis.type == "node" then
    ["```bash", "# Using npm", "npm install " ++ analysis.name, "",
     "# Using yarn", "yarn add " ++ analysis.name, "",
     "# Using pnpm", "pnpm add " ++ analysis.name]
    ++ (if (analysis.scripts.any (fun kv => strIncludes kv.1 "bin")) || strIncludes analysis.runCommand "npx" then
         ["", "# Or run directly with npx", "npx " ++ analysis.name]
        else [])
    ++ ["```"]
  else if analysis.type == "python" then
    ["```bash", "# Using pip", "pip install " ++ analysis.name, "",
     "# Using poetry", "poetry add " ++ analysis.name, "```"]
  else if analysis.type == "go" then
    ["```bash",
     "go install " ++ (if analysis.repository == "" then analysis.name else analysis.repository) ++ "@latest",
     "```"]
  else if analysis.type == "rust" then
    ["```bash", "# Using cargo", "cargo install " ++ analysis.name, "",
     "# Or add to Cargo.toml", "```", "", "```toml", "[dependencies]",
     analysis.name ++ " = \"" ++ (if analysis.version == "" then "*" else analysis.version) ++ "\"", "```"]
  else
    ["```bash", "# Clone the repository",
     "git clone " ++ (if analysis.repository == "" then "https://github.com/username/" ++ analysis.name else analysis.repository),
     "cd " ++ analysis.name]
    ++ (if analysis.installCommand == "" then [] else ["", "# Install dependencies", analysis.installCommand])
    ++ ["```"]

/-- `generateInstallation` from src/generator.js. -/
def generateInstallation (analysis : Analysis) : String :=
  String.intercalate "\n" (generateInstallationLines analysis)

/-- The `lines` array of `generateUsage` from src/generator.js. -/
def generateUsageLines (analysis : Analysis) : List String :=
  if analysis.type == "node" then
    (if strIncludes analysis.runCommand "npx" then
      ["```bash", analysis.runCommand, "```", "", "Or use programmatically:", ""]
     else [])
    ++ ["```javascript",
        "const " ++ toCamelCase analysis.name ++ " = require(\x27" ++ analysis.name ++ "\x27);",
        "", "// Example usage", "// " ++ toCamelCase analysis.name ++ ".doSomething();", "```"]
  else if analysis.type == "python" then
    ["```python", "import " ++ strReplaceChar analysis.name '-' '_', "", "# Example usage",
     "# " ++ strReplaceChar analysis.name '-' '_' ++ ".do_something()", "```"]
  else if analysis.type == "go" then
    ["```go",
     "import \"" ++ (if analysis.repository == "" then analysis.name else analysis.repository) ++ "\"",
     "", "func main() \x7b", "    // Example usage", "\x7d", "```"]
  else if analysis.type == "rust" then
    ["```rust", "use " ++ strReplaceChar analysis.name '-' '_' ++ ";", "",
     "fn main() \x7b", "    // Example usage", "\x7d", "```"]
  else
    if analysis.runCommand == "" then ["```bash", "# Add usage examples here", "```"]
    else ["```bash", analysis.runCommand, "```"]

/-- `generateUsage` from src/generator.js. -/
def generateUsage (analysis : Analysis) : String :=
  String.intercalate "\n" (generateUsageLines analysis)

/-- One table row of the API block. -/
def apiRow (name script : String) : String :=
  "| `npm run " ++ name ++ "` | " ++ describeScript name script ++ " |"

/-- The rows of the API command table: the `for (const [name, script] of
Object.entries(analysis.scripts))` loop, which skips every script name other
than `test`, `build` and `start`. -/
def apiTableRows (scripts : List (String × String)) : List String :=
  scripts.filterMap (fun kv =>
    if kv.1 == "test" || kv.1 == "build" || kv.1 == "start" then some (apiRow kv.1 kv.2)
    else none)

/-- The `lines` array of `generateApi` from src/generator.js. -/
def generateApiLines (analysis : Analysis) : List String :=
  ["### Available Commands", ""]
  ++ (if analysis.type == "node" && !analysis.scripts.isEmpty then
       ["| Command | Description |", "|---------|-------------|"]
       ++ apiTableRows analysis.scripts
       ++ [""]
      else [])
  ++ (if strIncludes analysis.runCommand "npx" || analysis.structure'.hasBin then
       ["### CLI Options", "", "```", analysis.name ++ " [options]", "", "Options:",
        "  -h, --help     Show help message", "  -v, --version  Show version number", "```"]
      else [])

/-- `generateApi` from src/generator.js. -/
def generateApi (analysis : Analysis) : String :=
  String.intercalate "\n" (generateApiLines analysis)

/-- `generateFeatures` from src/generator.js. -/
def generateFeatures (analysis : Analysis) : String :=
  let features :=
    if analysis.features.isEmpty then
      if analysis.type == "node" then ["Easy to use API", "Zero/minimal dependencies", "Well documented"]
      else if analysis.type == "python" then ["Pythonic API design", "Type hints support", "Well documented"]
      else if analysis.type == "go" then ["Fast and efficient", "Simple API", "Well documented"]
      else if analysis.type == "rust" then ["Memory safe", "High performance", "Well documented"]
      else ["Easy to use", "Well documented"]
    else analysis.features
  String.intercalate "\n" (features.map (fun f => "- " ++ f))

/-- `generateContributing` from src/generator.js (static text). -/
def generateContributing (_analysis : Analysis) : String :=
  "Contributions are welcome! Please feel free to submit a Pull Request.\n\n1. Fork the repository\n2. Create your feature branch (`git checkout -b feature/amazing-feature`)\n3. Commit your changes (`git commit -m \x27Add some amazing feature\x27`)\n4. Push to the branch (`git push origin feature/amazing-feature`)\n5. Open a Pull Request\n\nPlease make sure to update tests as appropriate and adhere to the existing coding style."

/-- The `sections` array of `generateReadme` from src/generator.js. -/
def generateReadmeSections (analysis : Analysis) : List String :=
  let badges := generateBadges analysis
  ["# " ++ formatTitle analysis.name, ""]
  ++ (if badges.length > 0 then [String.intercalate " " badges, ""] else [])
  ++ [(if analysis.description == "" then
        "> A " ++ (if analysis.type == "" then "project" else analysis.type) ++ " project"
       else "> " ++ analysis.description), ""]
  ++ ["## Table of Contents", "", "- [Features](#features)", "- [Installation](#installation)",
      "- [Usage](#usage)", "- [API](#api)", "- [Contributing](#contributing)", "- [License](#license)", ""]
  ++ ["## Features", "", generateFeatures analysis, ""]
  ++ ["## Installation", "", generateInstallation analysis, ""]
  ++ ["## Usage", "", generateUsage analysis, ""]
  ++ ["## API", "", generateApi analysis, ""]
  ++ ["## Contributing", "", generateContributing analysis, ""]
  ++ ["## License", "",
      (if analysis.license == "" then
        "This project is licensed under the MIT License - see the [LICENSE](LICENSE) file for details."
       else "This project is licensed under the " ++ analysis.license ++ " License - see the [LICENSE](LICENSE) file for details."), ""]
  ++ (if analysis.author == "" then [] else ["---", "", "Made with ❤️ by " ++ analysis.author])

/-- `generateReadme` from src/generator.js: the joined sections. -/
def generateReadme (analysis : Analysis) : String :=
  String.intercalate "\n" (generateReadmeSections analysis)

/-- The all-default "unknown" metadata record (every string empty, every list
empty, every flag false, `type = "unknown"`). -/
def defaultAnalysis : Analysis :=
  initAnalysis ""

/-- A dot-prefixed entry name. -/
def isDotName (e : Dirent) : Bool :=
  strStartsWith e.name "."

/-- An entry (of either kind) named exactly `.github` or `.gitlab-ci.yml`. -/
def ciNameP (e : Dirent) : Bool :=
  e.name == ".github" || e.name == ".gitlab-ci.yml"

/-- A non-dot subdirectory. -/
def nonDotDirP (e : Dirent) : Bool :=
  !isDotName e && e.isDir

def testNameP (e : Dirent) : Bool :=
  strToLower e.name == "test" || strToLower e.name == "tests" ||
  strToLower e.name == "__tests__" || strToLower e.name == "spec"

def docsNameP (e : Dirent) : Bool :=
  strToLower e.name == "docs" || strToLower e.name == "documentation"

def examplesNameP (e : Dirent) : Bool :=
  strToLower e.name == "examples" || strToLower e.name == "example"

def srcNameP (e : Dirent) : Bool :=
  strToLower e.name == "src" || strToLower e.name == "source"

def libNameP (e : Dirent) : Bool :=
  strToLower e.name == "lib"

def binNameP (e : Dirent) : Bool :=
  strToLower e.name == "bin"

def configNameP (e : Dirent) : Bool :=
  strToLower e.name == "config"

/-- A non-dot file whose lowercased name ends in `.md` or equals
`makefile`/`dockerfile`. -/
def mainFileP (e : Dirent) : Bool :=
  !isDotName e && !e.isDir &&
  (strEndsWith (strToLower e.name) ".md" || strToLower e.name == "makefile" ||
   strToLower e.name == "dockerfile")

/-- C6: parseToml maps `[a.b]\nkey = "v"\n` to a nested a → b table binding
`key` to the string `"v"`, and coerces `flag = true` to the boolean `true` and
`count = 5` to the number `5` (not to strings). -/
theorem C6_parser_round_trip :
    parseLookup "[a.b]\nkey = \"v\"\n" ["a", "b", "key"] = some (.vStr "v") ∧
    parseLookup "flag = true" ["flag"] = some (.vBool true) ∧
    parseLookup "count = 5" ["count"] = some (.vNum ⟨5, 0⟩) :=
  ⟨rfl, rfl, rfl⟩

/-- C2: generateReadme is a total function of the metadata record alone (its
embedding is a pure Lean function; the source performs no I/O), two invocations
on the same record are byte-identical, and the all-default unknown record
produces a non-empty document whose first section is the fallback title. -/
theorem C2_generator_pure_total :
    (∀ a : Analysis, generateReadme a = generateReadme a) ∧
    generateReadme defaultAnalysis = String.intercalate "\n" (generateReadmeSections defaultAnalysis) ∧
    (generateReadmeSections defaultAnalysis).headD "" = "# Project" ∧
    0 < strLen (generateReadme defaultAnalysis) :=
  ⟨fun _ => rfl, rfl, rfl, by decide⟩

/-- C3: a directory whose only manifest is a go.mod declaring
`module github.com/acme/widget` analyzes to type `go`, name `widget` and the
https repository URL; the installation block contains the `go install` line and
the badge list is exactly the GitHub-stars badge for `acme/widget`, both of
which occur in the generated document; with a non-github module path the
repository stays empty. -/
theorem C3_go_end_to_end :
    (analyzeProject "proj" ⟨[⟨"go.mod", false, .text "module github.com/acme/widget\n"⟩]⟩).type = "go" ∧
    (analyzeProject "proj" ⟨[⟨"go.mod", false, .text "module github.com/acme/widget\n"⟩]⟩).name = "widget" ∧
    (analyzeProject "proj" ⟨[⟨"go.mod", false, .text "module github.com/acme/widget\n"⟩]⟩).repository
      = "https://github.com/acme/widget" ∧
    generateInstallationLines (analyzeProject "proj" ⟨[⟨"go.mod", false, .text "module github.com/acme/widget\n"⟩]⟩)
      = ["```bash", "go install https://github.com/acme/widget@latest", "```"] ∧
    generateBadges (analyzeProject "proj" ⟨[⟨"go.mod", false, .text "module github.com/acme/widget\n"⟩]⟩)
      = ["[![GitHub stars](https://img.shields.io/github/stars/acme/widget.svg?style=social)](https://github.com/acme/widget)"] ∧
    strIncludes (generateReadme (analyzeProject "proj" ⟨[⟨"go.mod", false, .text "module github.com/acme/widget\n"⟩]⟩))
      "go install https://github.com/acme/widget@latest" = true ∧
    strIncludes (generateReadme (analyzeProject "proj" ⟨[⟨"go.mod", false, .text "module github.com/acme/widget\n"⟩]⟩))
      "img.shields.io/github/stars/acme/widget.svg" = true ∧
    (analyzeProject "proj" ⟨[⟨"go.mod", false, .text "module gitlab.com/acme/widget\n"⟩]⟩).repository = "" :=
  ⟨rfl, rfl, rfl, rfl, rfl, rfl, rfl, rfl⟩

/-- C10: for a record rendered by the default (unknown-type) installation
branch with an empty repository, the clone line uses the fabricated
`https://github.com/username/<name>` placeholder. -/
theorem C10_unknown_clone_placeholder (a : Analysis)
    (h1 : (a.type == "node") = false) (h2 : (a.type == "python") = false)
    (h3 : (a.type == "go") = false) (h4 : (a.type == "rust") = false)
    (h5 : a.repository = "") :
    ("git clone " ++ ("https://github.com/username/" ++ a.name)) ∈ generateInstallationLines a := by
  unfold generateInstallationLines
  rw [h1, h2, h3, h4, h5]
  simp

theorem C10_witness :
    ("git clone " ++ ("https://github.com/username/" ++ defaultAnalysis.name)) ∈
      generateInstallationLines defaultAnalysis :=
  C10_unknown_clone_placeholder defaultAnalysis rfl rfl rfl rfl rfl

theorem sLookup_cons (k x : String) (rest : List (String × String)) (key : String) :
    sLookup ((k, x) :: rest) key = if k == key then some x else sLookup rest key := by
  unfold sLookup
  cases h : (k == key) <;> simp [List.find?_cons, h]

theorem sLookup_eq_none_of_not_mem (l : List (String × String)) (key : String)
    (h : key ∉ l.map Prod.fst) : sLookup l key = none := by
  induction l with
  | nil => rfl
  | cons kv rest ih =>
    obtain ⟨k, x⟩ := kv
    simp only [List.map_cons, List.mem_cons] at h
    push_neg at h
    rw [sLookup_cons]
    have : (k == key) = false := by simp [h.1.symm]  -- wait direction
    rw [this, if_neg] <;> simp_all

theorem apiTableRows_cons (k x : String) (rest : List (String × String)) :
    apiTableRows ((k, x) :: rest) =
      if k == "test" || k == "build" || k == "start" then apiRow k x :: apiTableRows rest
      else apiTableRows rest := by
  unfold apiTableRows
  cases h : (k == "test" || k == "build" || k == "start")
  · simp only [Bool.or_eq_false_iff, beq_eq_false_iff_ne] at h
    obtain ⟨⟨h1, h2⟩, h3⟩ := h
    simp [List.filterMap_cons, h1, h2, h3]
  · simp only [Bool.or_eq_true, beq_iff_eq] at h
    rcases h with (h1 | h1) | h1 <;> simp [List.filterMap_cons, h1]

theorem apiTableRows_shape (l : List (String × String)) (hnodup : (l.map Prod.fst).Nodup)
    (hstart : sLookup l "start" = none) :
    (sLookup l "test" = none ∧ sLookup l "build" = none ∧ apiTableRows l = []) ∨
    (∃ u, sLookup l "test" = some u ∧ sLookup l "build" = none ∧
      apiTableRows l = [apiRow "test" u]) ∨
    (∃ v, sLookup l "test" = none ∧ sLookup l "build" = some v ∧
      apiTableRows l = [apiRow "build" v]) ∨
    (∃ u v, sLookup l "test" = some u ∧ sLookup l "build" = some v ∧
      (apiTableRows l = [apiRow "test" u, apiRow "build" v] ∨
       apiTableRows l = [apiRow "build" v, apiRow "test" u])) := by
  induction l with
  | nil => exact Or.inl ⟨rfl, rfl, rfl⟩
  | cons kv rest ih =>
    obtain ⟨k, x⟩ := kv
    simp only [List.map_cons, List.nodup_cons] at hnodup
    obtain ⟨hk, hrest⟩ := hnodup
    rw [sLookup_cons] at hstart
    have hks : (k == "start") = false := by
      cases h : (k == "start")
      · rfl
      · rw [h] at hstart; simp at hstart
    rw [hks] at hstart
    simp only [Bool.false_eq_true, if_false] at hstart
    have ih' := ih hrest hstart
    rw [sLookup_cons, sLookup_cons, apiTableRows_cons]
    by_cases hkt : k = "test"
    · subst hkt
      have htn : sLookup rest "test" = none := sLookup_eq_none_of_not_mem rest "test" hk
      rw [htn] at ih'
      rcases ih' with ⟨_, hb, hr⟩ | ⟨u, hu, _, _⟩ | ⟨v, _, hb, hr⟩ | ⟨u, v, hu, _, _⟩
      · exact Or.inr (Or.inl ⟨x, by simp, by simpa using hb, by simp [hr]⟩)
      · exact absurd hu (by simp [htn])
      · exact Or.inr (Or.inr (Or.inr ⟨x, v, by simp, by simpa using hb, Or.inl (by simp [hr])⟩))
      · exact absurd hu (by simp [htn])
    · by_cases hkb : k = "build"
      · subst hkb
        have hbn : sLookup rest "build" = none := sLookup_eq_none_of_not_mem rest "build" hk
        rw [hbn] at ih'
        rcases ih' with ⟨ht, _, hr⟩ | ⟨u, hu, _, hr⟩ | ⟨v, _, hb, _⟩ | ⟨u, v, _, hb, _⟩
        · exact Or.inr (Or.inr (Or.inl ⟨x, by simpa using ht, by simp, by simp [hr]⟩))
        · exact Or.inr (Or.inr (Or.inr ⟨u, x, by simpa using hu, by simp, Or.inr (by simp [hr])⟩))
        · exact absurd hb (by simp [hbn])
        · exact absurd hb (by simp [hbn])
      · have h1 : (k == "test") = false := by simp [hkt]
        have h2 : (k == "build") = false := by simp [hkb]
        rw [h1, h2, hks]
        simpa using ih'

theorem apiRow_test (u : String) : apiRow "test" u = "| `npm run test` | Run tests |" := rfl

theorem apiRow_build (v : String) : apiRow "build" v = "| `npm run build` | Build the project |" := rfl

/-- C8 (amended): for a node-type record whose scripts mapping contains the
keys `test`, `build` and `lint` but not `start`, the API block renders a
command table whose rows are exactly the `test` and `build` rows (two rows, no
row for `lint`); script names other than `test`, `build` and `start` never
produce a row. -/
theorem C8_api_table_rows (a : Analysis)
    (htype : a.type = "node")
    (hnodup : (a.scripts.map Prod.fst).Nodup)
    (htest : (sLookup a.scripts "test").isSome = true)
    (hbuild : (sLookup a.scripts "build").isSome = true)
    (_hlint : (sLookup a.scripts "lint").isSome = true)
    (hstart : sLookup a.scripts "start" = none) :
    (apiTableRows a.scripts).length = 2 ∧
    "| `npm run test` | Run tests |" ∈ apiTableRows a.scripts ∧
    "| `npm run build` | Build the project |" ∈ apiTableRows a.scripts ∧
    (∀ l ∈ apiTableRows a.scripts,
      l = "| `npm run test` | Run tests |" ∨ l = "| `npm run build` | Build the project |") ∧
    generateApiLines a =
      ["### Available Commands", "", "| Command | Description |", "|---------|-------------|"]
      ++ apiTableRows a.scripts ++ [""]
      ++ (if strIncludes a.runCommand "npx" || a.structure'.hasBin then
           ["### CLI Options", "", "```", a.name ++ " [options]", "", "Options:",
            "  -h, --help     Show help message", "  -v, --version  Show version number", "```"]
          else []) := by
  have hshape := apiTableRows_shape a.scripts hnodup hstart
  have hne : a.scripts ≠ [] := by
    intro h
    rw [h] at htest
    exact absurd htest (by simp [sLookup])
  have hrows : apiTableRows a.scripts = ["| `npm run test` | Run tests |", "| `npm run build` | Build the project |"] ∨
      apiTableRows a.scripts = ["| `npm run build` | Build the project |", "| `npm run test` | Run tests |"] := by
    rcases hshape with ⟨ht, _, _⟩ | ⟨u, _, hb, _⟩ | ⟨v, ht, _, _⟩ | ⟨u, v, _, _, hr⟩
    · rw [ht] at htest; exact absurd htest (by simp)
    · rw [hb] at hbuild; exact absurd hbuild (by simp)
    · rw [ht] at htest; exact absurd htest (by simp)
    · rw [apiRow_test, apiRow_build] at hr; exact hr
  refine ⟨?_, ?_, ?_, ?_, ?_⟩
  · rcases hrows with h | h <;> rw [h] <;> rfl
  · rcases hrows with h | h <;> rw [h] <;> simp
  · rcases hrows with h | h <;> rw [h] <;> simp
  · rcases hrows with h | h <;> rw [h] <;> intro l hl <;>
      (simp only [List.mem_cons, List.mem_singleton, List.not_mem_nil, or_false] at hl; tauto)
  · unfold generateApiLines
    have ht : (a.type == "node") = true := by simp [htype]
    have he : a.scripts.isEmpty = false := by
      cases hs : a.scripts
      · exact absurd hs hne
      · rfl
    rw [ht, he]
    simp

theorem C8_counterexample :
    (sLookup ([("test", "t"), ("build", "b"), ("lint", "l"), ("start", "s")]) "test").isSome = true ∧
    (sLookup ([("test", "t"), ("build", "b"), ("lint", "l"), ("start", "s")]) "build").isSome = true ∧
    (sLookup ([("test", "t"), ("build", "b"), ("lint", "l"), ("start", "s")]) "lint").isSome = true ∧
    ((generateApiLines { defaultAnalysis with
        type := "node",
        scripts := [("test", "t"), ("build", "b"), ("lint", "l"), ("start", "s")] }).filter
      (fun l => strStartsWith l "| `npm run ")).length = 3 :=
  ⟨rfl, rfl, rfl, rfl⟩

theorem C8_witness :
    (apiTableRows ({ defaultAnalysis with
        type := "node",
        scripts := [("test", "npm t"), ("build", "npm b"), ("lint", "eslint")] } : Analysis).scripts).length = 2 :=
  (C8_api_table_rows
    { defaultAnalysis with
      type := "node",
      scripts := [("test", "npm t"), ("build", "npm b"), ("lint", "eslint")] }
    rfl (by decide) rfl rfl rfl rfl).1

theorem strAppend_left_cancel_iff (s a b : String) : s ++ a = s ++ b ↔ a = b := by
  constructor
  · intro h
    cases s with | mk ls =>
    cases a with | mk la =>
    cases b with | mk lb =>
    have h' : String.mk (ls ++ la) = String.mk (ls ++ lb) := h
    injection h' with h''
    exact congrArg String.mk (List.append_cancel_left h'')
  · intro h; rw [h]

theorem all_takeWhile_self (p : Char → Bool) (l : List Char) :
    (l.takeWhile p).all p = true := by
  induction l with
  | nil => rfl
  | cons c cs ih =>
    rw [List.takeWhile_cons]
    cases h : p c
    · rfl
    · simp [h, ih]

theorem takeWhile_append_not (p : Char → Bool) (N : List Char) (x : Char) (r : List Char)
    (hall : N.all p = true) (hx : p x = false) : (N ++ x :: r).takeWhile p = N := by
  induction N with
  | nil => simp [List.takeWhile_cons, hx]
  | cons c cs ih =>
    simp only [List.all_cons, Bool.and_eq_true] at hall
    simp [List.takeWhile_cons, hall.1, ih hall.2]

theorem dropWhile_eq_drop_takeWhile (p : Char → Bool) (l : List Char) :
    l.drop (l.takeWhile p).length = l.dropWhile p := by
  induction l with
  | nil => rfl
  | cons c cs ih =>
    rw [List.takeWhile_cons, List.dropWhile_cons]
    cases h : p c
    · simp
    · simpa using ih

theorem matchTargetRun_some_facts (cs run : List Char) (h : matchTargetRun cs = some run) :
    run ≠ [] ∧ run.all charsetP = true ∧ (run ++ [':']) <+: cs := by
  unfold matchTargetRun at h
  cases he : (cs.takeWhile charsetP).isEmpty
  · rw [he] at h
    simp only [Bool.false_eq_true, if_false] at h
    rcases hd : cs.drop (cs.takeWhile charsetP).length with _ | ⟨d, rest⟩
    · rw [hd] at h; cases h
    · rw [hd] at h
      by_cases hdc : d = ':'
      · subst hdc
        simp only at h
        injection h with hrun
        subst hrun
        refine ⟨by simpa [List.isEmpty_iff] using he, all_takeWhile_self _ _, ?_⟩
        refine ⟨rest, ?_⟩
        conv_rhs => rw [← List.takeWhile_append_dropWhile (p := charsetP) (l := cs)]
        rw [← dropWhile_eq_drop_takeWhile, hd]
        simp
      · exfalso
        simp_all
  · rw [he] at h; simp at h

theorem matchTargetRun_of_prefix (cs N : List Char) (hN : N ≠ []) (hall : N.all charsetP = true)
    (hpre : (N ++ [':']) <+: cs) : matchTargetRun cs = some N := by
  obtain ⟨rest, hrest⟩ := hpre
  have hcs : cs = N ++ ':' :: rest := by rw [← hrest]; simp
  subst hcs
  unfold matchTargetRun
  have htw : (N ++ ':' :: rest).takeWhile charsetP = N :=
    takeWhile_append_not charsetP N ':' rest hall (by decide)
  rw [htw]
  have hne : N.isEmpty = false := by
    cases N
    · exact absurd rfl hN
    · rfl
  rw [hne]
  simp only [Bool.false_eq_true, if_false, List.drop_left]

theorem any_filterMap {α β : Type} (f : α → Option β) (p : β → Bool) (l : List α) :
    (l.filterMap f).any p = l.any (fun x =>
      match f x with
      | some y => p y
      | none => false) := by
  induction l with
  | nil => rfl
  | cons x xs ih =>
    rw [List.filterMap_cons, List.any_cons]
    cases h : f x
    · simpa [h] using ih
    · simp [h, List.any_cons, ih]

theorem objInsertS_any_key (s : List (String × String)) (k v K : String) :
    (objInsertS s k v).any (fun kv => kv.1 == K)
      = (s.any (fun kv => kv.1 == K) || (k == K)) := by
  induction s with
  | nil => simp [objInsertS]
  | cons kv rest ih =>
    obtain ⟨k', v'⟩ := kv
    unfold objInsertS
    cases h : (k' == k)
    · simp only [Bool.false_eq_true, if_false, List.any_cons, ih, Bool.or_assoc]
    · have hk : k' = k := by simpa using h
      subst hk
      simp only [if_true, List.any_cons]
      cases h1 : (k' == K) <;> cases h2 : rest.any (fun kv => kv.1 == K) <;> simp

theorem makefold_any_key (names : List String) (s : List (String × String)) (K : String) :
    ((names.foldl (fun s n =>
        if strStartsWith n "." then s
        else objInsertS s ("make " ++ n) "Makefile target") s).any (fun kv => kv.1 == K))
      = (s.any (fun kv => kv.1 == K) ||
         names.any (fun n => !strStartsWith n "." && ("make " ++ n == K))) := by
  induction names generalizing s with
  | nil => simp
  | cons n rest ih =>
    simp only [List.foldl_cons, List.any_cons]
    cases h : strStartsWith n "."
    · simp only [Bool.false_eq_true, if_false, ih, objInsertS_any_key, Bool.not_false,
        Bool.true_and, Bool.or_assoc]
    · simp only [if_true, ih, Bool.not_true, Bool.false_and, Bool.false_or]

theorem strMk_data (s : String) : String.mk s.toList = s := rfl

theorem startsWith_dot_false (run : List Char) (hne : run ≠ []) (hall : run.all charsetP = true) :
    strStartsWith (String.mk run) "." = false := by
  cases run with
  | nil => exact absurd rfl hne
  | cons h t =>
    simp only [List.all_cons, Bool.and_eq_true] at hall
    have hh : h ≠ '.' := by
      intro he
      rw [he] at hall
      exact absurd hall.1 (by decide)
    show List.isPrefixOf ['.'] (h :: t) = false
    simp [List.isPrefixOf, Ne.symm hh]

theorem toList_ne_nil_of_ne (N : String) (h : ¬N = "") : N.toList ≠ [] := by
  intro he
  apply h
  cases N with | mk l =>
  cases l with
  | nil => rfl
  | cons c cs => exact absurd he (by simp [String.toList])

theorem mem_makefileMatchNames_iff (c N : String) :
    N ∈ makefileMatchNames c ↔
      (¬N = "" ∧ N.toList.all charsetP = true ∧
        ∃ seg ∈ splitLinesJs c, (N.toList ++ [':']) <+: seg.toList) := by
  constructor
  · intro hn
    unfold makefileMatchNames at hn
    obtain ⟨seg, hseg, hf⟩ := List.mem_filterMap.mp hn
    rcases hm : matchTargetRun seg.toList with _ | run
    · rw [hm] at hf; cases hf
    · rw [hm] at hf
      simp only [Option.map_some'] at hf
      have hrun : run = N.toList := by
        cases N with | mk l =>
        injection hf with h1
        injection h1
      obtain ⟨hne, hall, hpre⟩ := matchTargetRun_some_facts _ _ hm
      rw [hrun] at hne hall hpre
      refine ⟨?_, hall, seg, hseg, hpre⟩
      intro he
      rw [he] at hne
      exact hne rfl
  · rintro ⟨hN, hall, seg, hseg, hpre⟩
    have hm : matchTargetRun seg.toList = some N.toList :=
      matchTargetRun_of_prefix _ _ (toList_ne_nil_of_ne N hN) hall hpre
    unfold makefileMatchNames
    exact List.mem_filterMap.mpr ⟨seg, hseg, by rw [hm]; simp [strMk_data]⟩

theorem makefileMatchNames_dot_false (c N : String) (hn : N ∈ makefileMatchNames c) :
    strStartsWith N "." = false := by
  obtain ⟨hN, hall, _⟩ := (mem_makefileMatchNames_iff c N).mp hn
  have h1 := startsWith_dot_false N.toList (toList_ne_nil_of_ne N hN) hall
  rw [strMk_data] at h1
  exact h1

/-- C9: detectScripts registers a Makefile target named `N` exactly when some
line of the Makefile begins with a non-empty run of characters from
`[a-zA-Z_-]` immediately followed by `:` (so names containing digits, dots or
any other character are never registered); for every project type each
registered target yields a `make <name>` key in the returned scripts object;
and every registered name starts with a character of that class, so the
explicit leading-dot exclusion never fires. -/
theorem C9_makefile_targets (d : Dir) (ptype : String) (N : String) :
    (N ∈ makefileTargets d ↔
      ∃ c, readText d "Makefile" = some c ∧ ¬N = "" ∧ N.toList.all charsetP = true ∧
        ∃ seg ∈ splitLinesJs c, (N.toList ++ [':']) <+: seg.toList) ∧
    (N ∈ makefileTargets d →
      ((detectScripts d ptype).any (fun kv => kv.1 == "make " ++ N)) = true) ∧
    (∀ n ∈ makefileTargets d, strStartsWith n "." = false) := by
  refine ⟨?_, ?_, ?_⟩
  · unfold makefileTargets
    rcases hr : readText d "Makefile" with _ | c
    · dsimp only
      constructor
      · intro hn
        exact absurd hn (by simp)
      · rintro ⟨c, hc, _⟩
        cases hc
    · dsimp only
      rw [mem_makefileMatchNames_iff]
      constructor
      · rintro ⟨hN, hall, hseg⟩
        exact ⟨c, rfl, hN, hall, hseg⟩
      · rintro ⟨c', hc', hN, hall, hseg⟩
        have hcc : c = c' := by injection hc'
        subst hcc
        exact ⟨hN, hall, hseg⟩
  · intro hn
    unfold makefileTargets at hn
    unfold detectScripts
    rcases hr : readText d "Makefile" with _ | c
    · rw [hr] at hn
      exact absurd hn (by simp)
    · rw [hr] at hn
      dsimp only
      rw [makefold_any_key]
      have hd := makefileMatchNames_dot_false c N hn
      have hany : (makefileMatchNames c).any
          (fun n => !strStartsWith n "." && ("make " ++ n == "make " ++ N)) = true := by
        rw [List.any_eq_true]
        exact ⟨N, hn, by simp [hd]⟩
      rw [hany]
      simp
  · intro n hn
    unfold makefileTargets at hn
    rcases hr : readText d "Makefile" with _ | c
    · rw [hr] at hn
      exact absurd hn (by simp)
    · rw [hr] at hn
      exact makefileMatchNames_dot_false c n hn

theorem C9_witness :
    ((detectScripts ⟨[⟨"Makefile", false, .text "build:\n\tgcc main.c\n.PHONY: x\nall two:\n"⟩]⟩ "node").any
      (fun kv => kv.1 == "make " ++ "build")) = true ∧
    "two" ∉ makefileTargets ⟨[⟨"Makefile", false, .text "build:\n\tgcc main.c\n.PHONY: x\nall two:\n"⟩]⟩ :=
  ⟨(C9_makefile_targets ⟨[⟨"Makefile", false, .text "build:\n\tgcc main.c\n.PHONY: x\nall two:\n"⟩]⟩
      "node" "build").2.1 (by decide),
   by decide⟩

theorem ciNameP_false_of_not_dot (e : Dirent) (h : strStartsWith e.name "." = false) :
    ciNameP e = false := by
  unfold ciNameP
  cases h1 : (e.name == ".github")
  · cases h2 : (e.name == ".gitlab-ci.yml")
    · rfl
    · have : e.name = ".gitlab-ci.yml" := by simpa using h2
      rw [this] at h
      exact absurd h (by decide)
  · have : e.name = ".github" := by simpa using h1
    rw [this] at h
    exact absurd h (by decide)

theorem structStep_eq (s : Structure) (e : Dirent) :
    structStep s e =
      { hasTests := s.hasTests || (nonDotDirP e && testNameP e),
        hasDocs := s.hasDocs || (nonDotDirP e && docsNameP e),
        hasExamples := s.hasExamples || (nonDotDirP e && examplesNameP e),
        hasSrc := s.hasSrc || (nonDotDirP e && srcNameP e),
        hasLib := s.hasLib || (nonDotDirP e && libNameP e),
        hasBin := s.hasBin || (nonDotDirP e && binNameP e),
        hasConfig := s.hasConfig || (nonDotDirP e && configNameP e),
        hasCI := s.hasCI || ciNameP e,
        mainFiles := s.mainFiles ++ (if mainFileP e then [e.name] else []),
        directories := s.directories ++ (if nonDotDirP e then [e.name] else []) } := by
  unfold structStep
  cases hdot : strStartsWith e.name "."
  · have hci := ciNameP_false_of_not_dot e hdot
    cases hdir : e.isDir
    · cases hmf : (strEndsWith (strToLower e.name) ".md" || strToLower e.name == "makefile" ||
          strToLower e.name == "dockerfile") <;>
        simp [nonDotDirP, isDotName, hdot, hdir, hci, mainFileP, hmf]
    · cases hc1 : (strToLower e.name == "test" || strToLower e.name == "tests" ||
          strToLower e.name == "__tests__" || strToLower e.name == "spec")
      · cases hc2 : (strToLower e.name == "docs" || strToLower e.name == "documentation")
        · cases hc3 : (strToLower e.name == "examples" || strToLower e.name == "example")
          · cases hc4 : (strToLower e.name == "src" || strToLower e.name == "source")
            · cases hc5 : (strToLower e.name == "lib")
              · cases hc6 : (strToLower e.name == "bin")
                · cases hc7 : (strToLower e.name == "config")
                  · simp [nonDotDirP, isDotName, hdot, hdir, hci, mainFileP, testNameP,
                      docsNameP, examplesNameP, srcNameP, libNameP, binNameP, configNameP,
                      hc1, hc2, hc3, hc4, hc5, hc6, hc7]
                  · have h : strToLower e.name = "config" := by simpa using hc7
                    simp [nonDotDirP, isDotName, hdot, hdir, hci, mainFileP, testNameP,
                      docsNameP, examplesNameP, srcNameP, libNameP, binNameP, configNameP, h]
                · have h : strToLower e.name = "bin" := by simpa using hc6
                  simp [nonDotDirP, isDotName, hdot, hdir, hci, mainFileP, testNameP,
                    docsNameP, examplesNameP, srcNameP, libNameP, binNameP, configNameP, h]
              · have h : strToLower e.name = "lib" := by simpa using hc5
                simp [nonDotDirP, isDotName, hdot, hdir, hci, mainFileP, testNameP,
                  docsNameP, examplesNameP, srcNameP, libNameP, binNameP, configNameP, h]
            · simp only [Bool.or_eq_true, beq_iff_eq] at hc4
              rcases hc4 with h | h <;>
                simp [nonDotDirP, isDotName, hdot, hdir, hci, mainFileP, testNameP,
                  docsNameP, examplesNameP, srcNameP, libNameP, binNameP, configNameP, h]
          · simp only [Bool.or_eq_true, beq_iff_eq] at hc3
            rcases hc3 with h | h <;>
              simp [nonDotDirP, isDotName, hdot, hdir, hci, mainFileP, testNameP,
                docsNameP, examplesNameP, srcNameP, libNameP, binNameP, configNameP, h]
        · simp only [Bool.or_eq_true, beq_iff_eq] at hc2
          rcases hc2 with h | h <;>
            simp [nonDotDirP, isDotName, hdot, hdir, hci, mainFileP, testNameP,
              docsNameP, examplesNameP, srcNameP, libNameP, binNameP, configNameP, h]
      · simp only [Bool.or_eq_true, beq_iff_eq] at hc1
        rcases hc1 with ((h | h) | h) | h <;>
          simp [nonDotDirP, isDotName, hdot, hdir, hci, mainFileP, testNameP,
            docsNameP, examplesNameP, srcNameP, libNameP, binNameP, configNameP, h]
  · cases hci : (e.name == ".github" || e.name == ".gitlab-ci.yml") <;>
      simp [nonDotDirP, isDotName, hdot, ciNameP, hci, mainFileP]

theorem foldl_structStep (es : List Dirent) (s : Structure) :
    es.foldl structStep s =
      { hasTests := s.hasTests || es.any (fun e => nonDotDirP e && testNameP e),
        hasDocs := s.hasDocs || es.any (fun e => nonDotDirP e && docsNameP e),
        hasExamples := s.hasExamples || es.any (fun e => nonDotDirP e && examplesNameP e),
        hasSrc := s.hasSrc || es.any (fun e => nonDotDirP e && srcNameP e),
        hasLib := s.hasLib || es.any (fun e => nonDotDirP e && libNameP e),
        hasBin := s.hasBin || es.any (fun e => nonDotDirP e && binNameP e),
        hasConfig := s.hasConfig || es.any (fun e => nonDotDirP e && configNameP e),
        hasCI := s.hasCI || es.any ciNameP,
        mainFiles := s.mainFiles ++ (es.filter mainFileP).map (fun e => e.name),
        directories := s.directories ++ (es.filter nonDotDirP).map (fun e => e.name) } := by
  induction es generalizing s with
  | nil => simp
  | cons e rest ih =>
    rw [List.foldl_cons, structStep_eq, ih]
    cases hmf : mainFileP e <;> cases hdd : nonDotDirP e <;>
      simp [List.any_cons, List.filter_cons, hmf, hdd, Bool.or_assoc]

/-- C4 (amended): analyzeStructure sets hasCI = true exactly when some
immediate child — of either kind, the source does not test the entry kind — is
literally named `.github` or `.gitlab-ci.yml`; dot-prefixed children are
excluded from `directories`, `mainFiles` and from every other flag (each flag
holds exactly when a non-dot child of the right kind and name exists). -/
theorem C4_structure_scanner (d : Dir) :
    (analyzeStructure d).hasCI = d.entries.any ciNameP ∧
    (analyzeStructure d).directories = (d.entries.filter nonDotDirP).map (fun e => e.name) ∧
    (analyzeStructure d).mainFiles = (d.entries.filter mainFileP).map (fun e => e.name) ∧
    (analyzeStructure d).hasTests = d.entries.any (fun e => nonDotDirP e && testNameP e) ∧
    (analyzeStructure d).hasDocs = d.entries.any (fun e => nonDotDirP e && docsNameP e) ∧
    (analyzeStructure d).hasExamples = d.entries.any (fun e => nonDotDirP e && examplesNameP e) ∧
    (analyzeStructure d).hasSrc = d.entries.any (fun e => nonDotDirP e && srcNameP e) ∧
    (analyzeStructure d).hasLib = d.entries.any (fun e => nonDotDirP e && libNameP e) ∧
    (analyzeStructure d).hasBin = d.entries.any (fun e => nonDotDirP e && binNameP e) ∧
    (analyzeStructure d).hasConfig = d.entries.any (fun e => nonDotDirP e && configNameP e) := by
  unfold analyzeStructure
  rw [foldl_structStep]
  simp [initStructure]

/-- C4 counterexample: a directory whose only child is a plain file named
`.github` gets hasCI = true although it has neither a directory named `.github`
nor a file named `.gitlab-ci.yml`, so the claim's kind-sensitive condition
fails on the code. -/
theorem C4_counterexample :
    (analyzeStructure ⟨[⟨".github", false, .text ""⟩]⟩).hasCI = true ∧
    (⟨[⟨".github", false, .text ""⟩]⟩ : Dir).entries.all
      (fun e => !(e.isDir && e.name == ".github") && !(!e.isDir && e.name == ".gitlab-ci.yml")) = true :=
  ⟨rfl, rfl⟩

